import Mathlib

/-!
Shallow embedding of three lint passes of this repository and proofs about
them:

* `ExternWithoutRepr.check_item` (src/clippy_lints/src/extern_without_repr.rs),
* `GuidelineLints.check_crate` / `check_item` / `check_expr`
  (src/clippy_lints/src/guidelines/mod.rs),
* `ManualIsAsciiCheck.check_expr` / `check_pat` / `check_range` /
  `is_matches_macro` (src/clippy_lints/src/manual_is_ascii_check.rs).

Host-compiler facilities (type resolution, span queries, source snippets,
version gates) are modelled as explicit record-of-functions contexts; the
identifiers of the embedded functions follow the source file names.
-/

namespace Spec2Proof

/-- Resolved definition identifier (`rustc_hir::def_id::DefId`). -/
abbrev DefId := Nat

/-- Source span (`rustc_span::Span`), opaque to the engine. -/
abbrev Span := Nat

/-! ## String helpers mirroring the `str` methods the source uses -/

/-- `str::split_once` on character lists: split at the first occurrence of
`pat`, returning the text before and after it. -/
def listSplitOnce : List Char → List Char → Option (List Char × List Char)
  | [], pat => if pat.isEmpty then some ([], []) else none
  | c :: rest, pat =>
    if pat.isPrefixOf (c :: rest) then some ([], (c :: rest).drop pat.length)
    else
      match listSplitOnce rest pat with
      | some (pre, post) => some (c :: pre, post)
      | none => none

/-- Rust `str::split_once`. -/
def splitOnce (s pat : String) : Option (String × String) :=
  match listSplitOnce s.toList pat.toList with
  | some (pre, post) => some (⟨pre⟩, ⟨post⟩)
  | none => none

/-- Rust `str::contains` with a string pattern: substring occurrence. -/
def strContainsSub (s pat : String) : Bool :=
  (listSplitOnce s.toList pat.toList).isSome

/-- Segments of Rust `str::split`, driven by fuel: split off the text before
the first occurrence of `pat` and recurse on the text after it. -/
def listSplitAux : Nat → List Char → List Char → List (List Char)
  | 0, s, _ => [s]
  | fuel + 1, s, pat =>
    match listSplitOnce s pat with
    | some (pre, post) => pre :: listSplitAux fuel post pat
    | none => [s]

/-- Rust `str::split` with a string pattern (the source only splits on
`"::"`): the segments between non-overlapping occurrences of the pattern.
The fuel `s.length` always suffices for a non-empty pattern, since every
successful split strictly shortens the remaining text and the empty
remainder holds no further occurrence. -/
def strSplit (s pat : String) : List String :=
  (listSplitAux s.toList.length s.toList pat.toList).map fun l => ⟨l⟩

/-- `f x₀ ++ f x₁ ++ …`: the diagnostics a loop body emits over a sequence,
in loop order. -/
def concatMap (f : α → List β) : List α → List β
  | [] => []
  | x :: xs => f x ++ concatMap f xs

/-! ## Layout Rule (src/clippy_lints/src/extern_without_repr.rs) -/

/-- The layout facets of `rustc_middle`'s `ReprOptions` that the lint
queries: `packed()`, `transparent()`, `c()`, `simd()`, `align`. -/
structure ReprOptions where
  packed : Bool
  transparent : Bool
  c : Bool
  simd : Bool
  align : Option Nat
deriving DecidableEq, Repr

/-- HIR-level type syntax as far as the lint inspects it: raw pointers,
references, nominal aggregate (ADT) paths, and everything else. -/
inductive HirTy where
  | ptr (t : HirTy)
  | ref (t : HirTy)
  | adt (did : DefId)
  | prim
deriving DecidableEq, Repr

/-- The composite `hir_ty_to_ty` + `Ty::ty_adt_def` of the source: the
resolved type's ADT definition id, when the type is a nominal aggregate.
An unstripped pointer or reference is not an ADT, so it yields `none`. -/
def tyAdtDefOf : HirTy → Option DefId
  | .adt did => some did
  | _ => none

/-- Modelled from the spec: `clippy_utils::ty::walk_ptrs_hir_ty` is code of
this repository that is not under src/. The spec (§4.2) has the Layout Rule
examine each parameter "after transparently unwrapping pointer/reference
indirection to reach the underlying nominal type". -/
def walk_ptrs_hir_ty : HirTy → HirTy
  | .ptr t => walk_ptrs_hir_ty t
  | .ref t => walk_ptrs_hir_ty t
  | .adt did => .adt did
  | .prim => .prim

/-- Host capabilities the Layout Rule consumes: per-ADT layout facets
(`AdtDef::repr`, queried live) and definition spans (`TyCtxt::def_span`). -/
structure LayoutCtx where
  reprOf : DefId → ReprOptions
  defSpan : DefId → Span

/-- A diagnostic of the Layout Rule: `span_lint_and_then`'s span and message. -/
structure LayoutFinding where
  span : Span
  msg : String
deriving DecidableEq, Repr

/-- The fixed message of the lint. -/
def externWithoutReprMsg : String :=
  "Should use repr to specifing data layout when struct is used in FFI"

/-- The outbound-definition guard: `snippet.split_once("fn")` succeeds and
the text before the `fn` keyword contains `extern "C"`. -/
def hasExternCFnPrefix (snip : String) : Bool :=
  match splitOnce snip "fn" with
  | some (fn_attrs, _) => strContainsSub fn_attrs "extern \"C\""
  | none => false

/-- The body of the outbound loop for one parameter type: strip indirection,
and if the result is an ADT whose repr has none of
{packed, transparent, c, align} set, emit one finding at the type
definition's span. -/
def outboundParamFindings (ctx : LayoutCtx) (input : HirTy) : List LayoutFinding :=
  match tyAdtDefOf (walk_ptrs_hir_ty input) with
  | some did =>
    let r := ctx.reprOf did
    if r.packed || r.transparent || r.c || r.align.isSome then []
    else [⟨ctx.defSpan did, externWithoutReprMsg⟩]
  | none => []

/-- The body of the inbound loop for one parameter type: as the outbound
body, but the accepted facet set additionally contains `simd`. -/
def inboundParamFindings (ctx : LayoutCtx) (input : HirTy) : List LayoutFinding :=
  match tyAdtDefOf (walk_ptrs_hir_ty input) with
  | some did =>
    let r := ctx.reprOf did
    if r.packed || r.transparent || r.c || r.simd || r.align.isSome then []
    else [⟨ctx.defSpan did, externWithoutReprMsg⟩]
  | none => []

/-- A function signature as the lint reads it: the source snippet of
`fn_sig.span` and the declared input types. -/
structure FnSig where
  snip : String
  inputs : List HirTy

/-- `rustc_target::spec::abi::Abi`, as far as matched: `Abi::C { unwind }`
versus every other calling convention. -/
inductive Abi where
  | c (unwind : Bool)
  | other
deriving DecidableEq

/-- A foreign item's kind: a foreign function with its input types, or
anything else. -/
inductive ForeignItemKind where
  | fn (inputs : List HirTy)
  | other

/-- A foreign item (`rustc_hir::ForeignItem`), as far as inspected. -/
structure ForeignItem where
  kind : ForeignItemKind

/-- The item kinds the lint distinguishes. A foreign module's entry is
`none` when `tcx.hir().find` does not return a `Node::ForeignItem` for it. -/
inductive ItemKind where
  | fn (sig : FnSig)
  | foreignMod (abi : Abi) (items : List (Option ForeignItem))
  | other

/-- An item (`rustc_hir::Item`), as far as inspected. -/
structure Item where
  kind : ItemKind

/-- `ExternWithoutRepr::check_item`: the outbound-definition block (an
`ItemKind::Fn` whose pre-`fn` snippet contains `extern "C"`) followed by the
inbound-declaration block (an `ItemKind::ForeignMod` with a C ABI), each
emitting per-parameter findings in loop order. -/
def ExternWithoutRepr.check_item (ctx : LayoutCtx) (item : Item) : List LayoutFinding :=
  (match item.kind with
   | .fn sig =>
     if hasExternCFnPrefix sig.snip then concatMap (outboundParamFindings ctx) sig.inputs
     else []
   | _ => []) ++
  (match item.kind with
   | .foreignMod (.c _) items =>
     concatMap (fun it =>
       match it with
       | some f =>
         match f.kind with
         | .fn inputs => concatMap (inboundParamFindings ctx) inputs
         | .other => []
       | none => []) items
   | _ => [])

/-! ## Symbol Resolver and Dangerous-Call Rule
(src/clippy_lints/src/guidelines/mod.rs) -/

/-- The host's symbol-resolution capability:
`clippy_utils::def_path_def_ids` returns, for a path given as segments, the
`DefId`s of every matching definition, in the host's iteration order. -/
structure ResolveHost where
  defPathDefIds : List String → List DefId

/-- `libc_fn_def_id`: resolve a bare function name under the `libc`
namespace, keeping the first match if any. -/
def libc_fn_def_id (host : ResolveHost) (fn_name : String) : Option DefId :=
  (host.defPathDefIds ["libc", fn_name]).head?

/-- The `GuidelineLints` pass state: the configured name list and the
resolved dangerous-symbol set (`DefIdSet`). -/
structure GuidelineLints where
  mem_uns_fns : List String
  mem_uns_fns_ty_ids : Finset DefId

/-- The loop body of `GuidelineLints::check_crate` for one configured name:
a name containing `"::"` is split on `"::"` and every resolved match of the
path is inserted; otherwise the name's first `libc` match, if any, is
inserted. -/
def resolveStep (host : ResolveHost) (ids : Finset DefId) (uns_fns : String) : Finset DefId :=
  if strContainsSub uns_fns "::" then
    (host.defPathDefIds (strSplit uns_fns "::")).foldl (fun acc did => insert did acc) ids
  else
    match libc_fn_def_id host uns_fns with
    | some did => insert did ids
    | none => ids

/-- `GuidelineLints::check_crate`: resolve each configured name in order
into the dangerous-symbol set. Unmatched names contribute nothing and no
error is raised. -/
def GuidelineLints.check_crate (host : ResolveHost) (s : GuidelineLints) : GuidelineLints :=
  { s with
    mem_uns_fns_ty_ids := s.mem_uns_fns.foldl (resolveStep host) s.mem_uns_fns_ty_ids }

/-- An item as the per-item hook sees it (shape irrelevant to the modelled
hook body). -/
structure HirItem where
  span : Span

/-- A call expression's resolved callee: `some did` when the callee resolves
to the named definition `did`, `none` when it does not resolve to a named
symbol (e.g. a call through a function value). -/
inductive HirExprKind where
  | call (callee : Option DefId)
  | other

/-- An expression as the per-expression hook sees it. -/
structure HirExpr where
  span : Span
  kind : HirExprKind

/-- A Dangerous-Call finding: the call expression's span; no replacement
text is suggested. -/
structure CallFinding where
  span : Span
  sugg : Option String
deriving DecidableEq, Repr

/-- Modelled from the spec: the body of
`mem_unsafe_functions::check_foreign_item` is code of this repository that
is not under src/ (only its caller, `GuidelineLints::check_item`, is). The
spec (§5) states the dangerous-symbol set "transitions exactly once from
empty to populated at unit start and is read-only for the remainder of the
unit", and §4 gives the per-item hook no set-modifying behaviour, so the
hook is modelled as returning the set unchanged. -/
def check_foreign_item (_item : HirItem) (_fns : List String) (ids : Finset DefId) :
    Finset DefId :=
  ids

/-- Modelled from the spec: the body of `mem_unsafe_functions::check` is
code of this repository that is not under src/ (only its caller,
`GuidelineLints::check_expr`, is). Per §4.3, it resolves the call's callee
to a symbol (no resolution → no finding), tests membership in the dangerous
set, and on membership emits one Finding at the call expression's span with
no suggested replacement. -/
def mem_uns_functions_check (e : HirExpr) (ids : Finset DefId) : List CallFinding :=
  match e.kind with
  | .call (some did) => if did ∈ ids then [⟨e.span, none⟩] else []
  | _ => []

/-- `GuidelineLints::check_item`: delegates to the foreign-item hook,
threading the set through its `&mut` borrow. -/
def GuidelineLints.check_item (s : GuidelineLints) (it : HirItem) : GuidelineLints :=
  { s with mem_uns_fns_ty_ids := check_foreign_item it s.mem_uns_fns s.mem_uns_fns_ty_ids }

/-- `GuidelineLints::check_expr`: delegates to the call checker with a
shared (read-only) borrow of the set. -/
def GuidelineLints.check_expr (s : GuidelineLints) (e : HirExpr) : List CallFinding :=
  mem_uns_functions_check e s.mem_uns_fns_ty_ids

/-- One host callback after unit start: a per-item or per-expression visit. -/
inductive UnitEvent where
  | item (it : HirItem)
  | expr (e : HirExpr)

/-- Dispatching one event: items may rewrite the pass state, expressions
emit findings. -/
def stepUnit (s : GuidelineLints) : UnitEvent → GuidelineLints × List CallFinding
  | .item it => (s.check_item it, [])
  | .expr e => (s, s.check_expr e)

/-- The host's serialized traversal after unit start: each event is
dispatched in order and the findings are concatenated. -/
def runUnit (s : GuidelineLints) : List UnitEvent → GuidelineLints × List CallFinding
  | [] => (s, [])
  | ev :: evs =>
    let r := stepUnit s ev
    let r2 := runUnit r.1 evs
    (r2.1, r.2 ++ r2.2)

/-! ## Range-Idiom Rule (src/clippy_lints/src/manual_is_ascii_check.rs) -/

/-- The literal kinds the pattern check distinguishes
(`rustc_ast::LitKind::Char` and `::Byte`). -/
inductive LitKind where
  | char (c : Char)
  | byte (b : Nat)
  | other
deriving DecidableEq, Repr

/-- `rustc_hir::RangeEnd`. -/
inductive RangeEnd where
  | included
  | excluded
deriving DecidableEq, Repr

/-- A range-pattern endpoint expression, as far as `check_range` inspects
it: a literal or anything else. -/
inductive PatExpr where
  | lit (l : LitKind)
  | other
deriving DecidableEq, Repr

/-- `rustc_hir::PatKind`, as far as `check_pat` inspects it. -/
inductive PatKind where
  | or (pats : List PatKind)
  | range (lo : Option PatExpr) (hi : Option PatExpr) (rend : RangeEnd)
  | wild
  | other

/-- The transient classification of one pattern (`enum CharRange`). -/
inductive CharRange where
  | lowerChar
  | upperChar
  | fullChar
  | digit
  | otherwise
deriving DecidableEq, BEq, Repr

/-- `check_range`: both endpoints must be literals forming one of the three
recognized inclusive pairs, in `char` or byte form (`b'a' = 97`,
`b'z' = 122`, `b'A' = 65`, `b'Z' = 90`, `b'0' = 48`, `b'9' = 57`). -/
def check_range (start stop : PatExpr) : CharRange :=
  match start, stop with
  | .lit start_lit, .lit end_lit =>
    match start_lit, end_lit with
    | .char 'a', .char 'z' => .lowerChar
    | .byte 97, .byte 122 => .lowerChar
    | .char 'A', .char 'Z' => .upperChar
    | .byte 65, .byte 90 => .upperChar
    | .char '0', .char '9' => .digit
    | .byte 48, .byte 57 => .digit
    | _, _ => .otherwise
  | _, _ => .otherwise

mutual

/-- `check_pat`: an or-pattern of exactly two sub-patterns classified as the
upper and the lower range (in either order) is the full alphabetic range; an
inclusive range with both endpoints present is classified by `check_range`;
everything else is `otherwise`. -/
def check_pat : PatKind → CharRange
  | .or pats =>
    let ranges := check_pat_list pats
    if ranges.length == 2 && ranges.contains CharRange.upperChar
        && ranges.contains CharRange.lowerChar then
      .fullChar
    else
      .otherwise
  | .range (some lo) (some hi) .included => check_range lo hi
  | _ => .otherwise

/-- `pats.iter().map(|p| check_pat(&p.kind)).collect()`. -/
def check_pat_list : List PatKind → List CharRange
  | [] => []
  | p :: ps => check_pat p :: check_pat_list ps

end

/-- The suggested predicate name for a classification, as the `match range`
expression inside `check_expr` chooses it. -/
def rangeSuggestion : CharRange → Option String
  | .upperChar => some "is_ascii_uppercase"
  | .lowerChar => some "is_ascii_lowercase"
  | .fullChar => some "is_ascii_alphabetic"
  | .digit => some "is_ascii_digit"
  | .otherwise => none

/-- The root macro invocation a span expands from
(`clippy_utils::macros::root_macro_call`): the macro's `DefId` and the whole
invocation's span. -/
structure MacroCall where
  def_id : DefId
  span : Span

/-- An expression's span together with what the host's
`root_macro_call` query answers for it. -/
structure SpanData where
  raw : Span
  rootMacro : Option MacroCall

/-- A match arm: its pattern, and whether the arm carries an `if` guard
(the guard expression itself is never inspected). -/
structure Arm where
  pat : PatKind
  guard : Bool

/-- The scrutinee of the desugared `match`; only its span is used. -/
structure Recv where
  span : Span

/-- `rustc_hir::ExprKind`, as far as `check_expr` matches it: a `match`
with its scrutinee and arm list (the match source is ignored), or anything
else. -/
inductive MatchExprKind where
  | matchE (recv : Recv) (arms : List Arm)
  | other

/-- An expression as `check_expr` sees it. -/
structure Expr where
  hirId : Nat
  span : SpanData
  kind : MatchExprKind

/-- The two version thresholds the rule consults:
`msrvs::IS_ASCII_DIGIT` (base) and `msrvs::IS_ASCII_DIGIT_CONST`
(constant contexts). -/
inductive MsrvGate where
  | isAsciiDigit
  | isAsciiDigitConst
deriving DecidableEq

/-- Host capabilities the Range-Idiom Rule consumes. Modelled from the spec
(§6) where their implementations (`clippy_utils`'s `meets_msrv`,
`in_constant`, `get_diagnostic_name`, `source::snippet`) are code of this
repository not under src/: a minimum-capability gate per threshold, a
constant-context predicate per expression, the diagnostic name registered
for a definition, and source-text extraction that yields `none` when the
span's text is unrecoverable. -/
structure LintHost where
  meetsMsrv : MsrvGate → Bool
  inConstant : Nat → Bool
  getDiagnosticName : DefId → Option String
  snippetOf : Span → Option String

/-- `clippy_utils::source::snippet`: the span's literal text when
recoverable, the caller-supplied placeholder otherwise. -/
def snippet (host : LintHost) (sp : Span) (dflt : String) : String :=
  (host.snippetOf sp).getD dflt

/-- `is_matches_macro`: the macro definition carries the diagnostic name
`sym::matches_macro`. -/
def is_matches_macro (host : LintHost) (macro_def_id : DefId) : Bool :=
  match host.getDiagnosticName macro_def_id with
  | some name => name == "matches_macro"
  | none => false

/-- `rustc_errors::Applicability`. -/
inductive Applicability where
  | machineApplicable
  | maybeIncorrect
  | hasPlaceholders
  | unspecified
deriving DecidableEq, Repr

/-- A Range-Idiom finding as `span_lint_and_sugg` emits it: the macro
invocation's span, the message, the help label, the suggested replacement
text, and the suggestion's applicability. -/
structure AsciiFinding where
  span : Span
  msg : String
  helpMsg : String
  sugg : String
  applicability : Applicability
deriving DecidableEq, Repr

/-- `ManualIsAsciiCheck::check_expr`: gate on the base threshold, then on
the stricter constant-context threshold; require the expression's root
macro invocation to be the `matches!` macro and the expression to be a
`match` with at least one arm; classify the first arm's pattern; on a
recognized classification, emit one finding suggesting
`<recv>.<predicate>()`, machine-applicable exactly when the receiver's
snippet differs from the `".."` placeholder. -/
def ManualIsAsciiCheck.check_expr (host : LintHost) (e : Expr) : Option AsciiFinding :=
  if !(host.meetsMsrv .isAsciiDigit) then
    none
  else if host.inConstant e.hirId && !(host.meetsMsrv .isAsciiDigitConst) then
    none
  else
    match e.span.rootMacro with
    | none => none
    | some macro_call =>
      if is_matches_macro host macro_call.def_id then
        match e.kind with
        | .matchE recv (arm :: _) =>
          match rangeSuggestion (check_pat arm.pat) with
          | some sugg =>
            let default_snip := ".."
            let recvSnip := snippet host recv.span default_snip
            let applicability :=
              if recvSnip != default_snip then Applicability.machineApplicable
              else Applicability.maybeIncorrect
            some ⟨macro_call.span, "manual check for common ascii range", "try",
              recvSnip ++ "." ++ sugg ++ "()", applicability⟩
          | none => none
        | _ => none
      else
        none

/-! ## Theorems: Layout Rule -/

theorem outbound_param_countP (ctx : LayoutCtx) (hinj : Function.Injective ctx.defSpan)
    (d : DefId) (t : HirTy) :
    (outboundParamFindings ctx t).countP (fun f => f.span == ctx.defSpan d) =
      if (ctx.reprOf d).packed || (ctx.reprOf d).transparent || (ctx.reprOf d).c
          || (ctx.reprOf d).align.isSome then 0
      else if tyAdtDefOf (walk_ptrs_hir_ty t) == some d then 1 else 0 := by
  cases h : tyAdtDefOf (walk_ptrs_hir_ty t) with
  | none => simp [outboundParamFindings, h]
  | some did =>
    by_cases hd : did = d
    · subst hd
      by_cases hf : ((ctx.reprOf did).packed || (ctx.reprOf did).transparent
          || (ctx.reprOf did).c || (ctx.reprOf did).align.isSome) = true
      · simp [outboundParamFindings, h, hf]
      · simp only [Bool.not_eq_true] at hf
        simp [outboundParamFindings, h, hf, List.countP_cons]
    · have hspan : (ctx.defSpan did == ctx.defSpan d) = false := by
        simp only [beq_eq_false_iff_ne, ne_eq]
        intro hEq
        exact hd (hinj hEq)
      by_cases hf : ((ctx.reprOf did).packed || (ctx.reprOf did).transparent
          || (ctx.reprOf did).c || (ctx.reprOf did).align.isSome) = true
      · simp [outboundParamFindings, h, hf, hd]
      · simp only [Bool.not_eq_true] at hf
        simp [outboundParamFindings, h, hf, List.countP_cons, hspan, hd]

/-- C1: in the outbound path (an `extern "C"` function definition), each
parameter occurrence whose stripped type is a given aggregate yields exactly
one finding anchored at that type definition's span when none of
{packed, transparent, c-compatible, explicitly-aligned} is set, and no
finding referencing that type is emitted when at least one is set: the
number of findings at `ctx.defSpan d` equals the number of parameter
occurrences of `d` when `d` has no facet, and `0` otherwise. -/
theorem extern_without_repr_c1 (ctx : LayoutCtx) (sig : FnSig)
    (hinj : Function.Injective ctx.defSpan)
    (hg : hasExternCFnPrefix sig.snip = true) (d : DefId) :
    (ExternWithoutRepr.check_item ctx ⟨.fn sig⟩).countP (fun f => f.span == ctx.defSpan d) =
      if (ctx.reprOf d).packed || (ctx.reprOf d).transparent || (ctx.reprOf d).c
          || (ctx.reprOf d).align.isSome then 0
      else sig.inputs.countP (fun t => tyAdtDefOf (walk_ptrs_hir_ty t) == some d) := by
  have hstep : ∀ l : List HirTy,
      (concatMap (outboundParamFindings ctx) l).countP (fun f => f.span == ctx.defSpan d) =
        if (ctx.reprOf d).packed || (ctx.reprOf d).transparent || (ctx.reprOf d).c
            || (ctx.reprOf d).align.isSome then 0
        else l.countP (fun t => tyAdtDefOf (walk_ptrs_hir_ty t) == some d) := by
    intro l
    induction l with
    | nil => simp [concatMap]
    | cons t ts ih =>
      rw [concatMap, List.countP_append, ih, outbound_param_countP ctx hinj d t,
        List.countP_cons]
      by_cases hf : ((ctx.reprOf d).packed || (ctx.reprOf d).transparent || (ctx.reprOf d).c
          || (ctx.reprOf d).align.isSome) = true
      · simp [hf]
      · simp only [Bool.not_eq_true] at hf
        simp [hf, Nat.add_comm]
  have hck : ExternWithoutRepr.check_item ctx ⟨.fn sig⟩ =
      concatMap (outboundParamFindings ctx) sig.inputs := by
    simp [ExternWithoutRepr.check_item, hg]
  rw [hck, hstep]

/-- A layout context with no facet set anywhere and the identity span map. -/
def c1Ctx : LayoutCtx :=
  { reprOf := fun _ => ⟨false, false, false, false, none⟩, defSpan := fun d => d }

/-- An `extern "C"` signature passing the same aggregate behind a pointer
and by value, plus a primitive. -/
def c1Sig : FnSig :=
  { snip := "extern \"C\" fn f", inputs := [.ptr (.adt 0), .adt 0, .prim] }

theorem extern_without_repr_c1_witness :
    hasExternCFnPrefix c1Sig.snip = true ∧
    (ExternWithoutRepr.check_item c1Ctx ⟨.fn c1Sig⟩).countP
        (fun f => f.span == c1Ctx.defSpan 0) =
      if (c1Ctx.reprOf 0).packed || (c1Ctx.reprOf 0).transparent || (c1Ctx.reprOf 0).c
          || (c1Ctx.reprOf 0).align.isSome then 0
      else c1Sig.inputs.countP (fun t => tyAdtDefOf (walk_ptrs_hir_ty t) == some 0) :=
  ⟨by decide, extern_without_repr_c1 c1Ctx c1Sig (fun a b h => h) (by decide) 0⟩

/-- C8: the inbound-declaration path additionally accepts the `simd` facet,
the outbound-definition path does not: an aggregate whose only facet is
`simd` produces no finding as a parameter of a C-ABI foreign declaration,
but produces one as a parameter of an `extern "C"` function definition. -/
theorem extern_without_repr_c8 (ctx : LayoutCtx) (d : DefId) (t : HirTy) (u : Bool)
    (snip : String)
    (hrepr : ctx.reprOf d = ⟨false, false, false, true, none⟩)
    (ht : walk_ptrs_hir_ty t = .adt d)
    (hg : hasExternCFnPrefix snip = true) :
    ExternWithoutRepr.check_item ctx ⟨.foreignMod (.c u) [some ⟨.fn [t]⟩]⟩ = [] ∧
    ExternWithoutRepr.check_item ctx ⟨.fn ⟨snip, [t]⟩⟩ =
      [⟨ctx.defSpan d, externWithoutReprMsg⟩] := by
  constructor
  · simp [ExternWithoutRepr.check_item, concatMap, inboundParamFindings, ht, tyAdtDefOf, hrepr]
  · simp [ExternWithoutRepr.check_item, hg, concatMap, outboundParamFindings, ht, tyAdtDefOf,
      hrepr]

/-- A layout context where every aggregate's only facet is `simd`. -/
def c8Ctx : LayoutCtx :=
  { reprOf := fun _ => ⟨false, false, false, true, none⟩, defSpan := fun d => d + 10 }

theorem extern_without_repr_c8_witness :
    c8Ctx.reprOf 3 = ⟨false, false, false, true, none⟩ ∧
    walk_ptrs_hir_ty (.ptr (.adt 3)) = .adt 3 ∧
    hasExternCFnPrefix "extern \"C\" fn g" = true ∧
    (ExternWithoutRepr.check_item c8Ctx
        ⟨.foreignMod (.c false) [some ⟨.fn [.ptr (.adt 3)]⟩]⟩ = [] ∧
      ExternWithoutRepr.check_item c8Ctx ⟨.fn ⟨"extern \"C\" fn g", [.ptr (.adt 3)]⟩⟩ =
        [⟨c8Ctx.defSpan 3, externWithoutReprMsg⟩]) :=
  ⟨by decide, by decide, by decide,
    extern_without_repr_c8 c8Ctx 3 (.ptr (.adt 3)) false "extern \"C\" fn g"
      (by decide) (by decide) (by decide)⟩

/-- One level of indirection: a raw pointer or a reference. -/
inductive Indirection where
  | ptr
  | ref

/-- Wrap a type in the given levels of pointer/reference indirection,
outermost first. -/
def applyWraps : List Indirection → HirTy → HirTy
  | [], t => t
  | .ptr :: ws, t => .ptr (applyWraps ws t)
  | .ref :: ws, t => .ref (applyWraps ws t)

theorem walk_ptrs_applyWraps (ws : List Indirection) (t : HirTy) :
    walk_ptrs_hir_ty (applyWraps ws t) = walk_ptrs_hir_ty t := by
  induction ws with
  | nil => rfl
  | cons w ws ih => cases w <;> simp [applyWraps, walk_ptrs_hir_ty, ih]

/-- C9: the per-parameter verdict of both Layout Rule paths is invariant
under any levels of pointer or reference wrapping, because indirection is
stripped before the layout-facet check. -/
theorem extern_without_repr_c9 (ctx : LayoutCtx) (ws : List Indirection) (t : HirTy) :
    outboundParamFindings ctx (applyWraps ws t) = outboundParamFindings ctx t ∧
    inboundParamFindings ctx (applyWraps ws t) = inboundParamFindings ctx t := by
  constructor <;>
    simp [outboundParamFindings, inboundParamFindings, walk_ptrs_applyWraps]

/-! ## Theorems: Symbol Resolver and Dangerous-Call Rule -/

theorem mem_foldl_insert (l : List DefId) (ids : Finset DefId) (d : DefId) :
    (d ∈ l.foldl (fun acc did => insert did acc) ids) ↔ d ∈ ids ∨ d ∈ l := by
  induction l generalizing ids with
  | nil => simp
  | cons x xs ih =>
    rw [List.foldl_cons, ih]
    simp [Finset.mem_insert]
    tauto

/-- C4: the Symbol Resolver inserts every match of each `::`-qualified name
and at most the first `libc` match of each plain name; unmatched names
contribute nothing, and resolution is a total function (no error). In
particular, a list of one unmatched qualified name and one alias-matched
plain name yields exactly the singleton of the alias match. -/
theorem guideline_c4 (host : ResolveHost) (fns : List String) (ids0 : Finset DefId) :
    (∀ d : DefId,
      d ∈ (GuidelineLints.check_crate host ⟨fns, ids0⟩).mem_uns_fns_ty_ids ↔
        d ∈ ids0 ∨ ∃ n ∈ fns,
          (strContainsSub n "::" = true ∧ d ∈ host.defPathDefIds (strSplit n "::")) ∨
          (strContainsSub n "::" = false ∧ libc_fn_def_id host n = some d)) ∧
    (∀ (q p : String) (dq : DefId), strContainsSub q "::" = true →
      strContainsSub p "::" = false →
      host.defPathDefIds (strSplit q "::") = [] → libc_fn_def_id host p = some dq →
      (GuidelineLints.check_crate host ⟨[q, p], ∅⟩).mem_uns_fns_ty_ids = {dq}) := by
  have hstep : ∀ (ids : Finset DefId) (n : String) (d : DefId),
      d ∈ resolveStep host ids n ↔
        d ∈ ids ∨
          ((strContainsSub n "::" = true ∧ d ∈ host.defPathDefIds (strSplit n "::")) ∨
            (strContainsSub n "::" = false ∧ libc_fn_def_id host n = some d)) := by
    intro ids n d
    unfold resolveStep
    cases hc : strContainsSub n "::" with
    | true =>
      rw [if_pos rfl, mem_foldl_insert]
      simp
    | false =>
      rw [if_neg (by simp)]
      cases hlib : libc_fn_def_id host n with
      | none => simp [hlib]
      | some did =>
        simp only [Finset.mem_insert, hlib, Option.some.injEq, Bool.false_eq_true,
          false_and, false_or, true_and]
        constructor
        · rintro (h | h)
          · exact Or.inr h.symm
          · exact Or.inl h
        · rintro (h | h)
          · exact Or.inr h
          · exact Or.inl h.symm
  have hmem : ∀ (fns : List String) (ids0 : Finset DefId) (d : DefId),
      d ∈ (GuidelineLints.check_crate host ⟨fns, ids0⟩).mem_uns_fns_ty_ids ↔
        d ∈ ids0 ∨ ∃ n ∈ fns,
          (strContainsSub n "::" = true ∧ d ∈ host.defPathDefIds (strSplit n "::")) ∨
          (strContainsSub n "::" = false ∧ libc_fn_def_id host n = some d) := by
    intro fns
    simp only [GuidelineLints.check_crate]
    induction fns with
    | nil => simp
    | cons n ns ih =>
      intro ids0 d
      rw [List.foldl_cons, ih, hstep]
      simp only [List.mem_cons, exists_eq_or_imp]
      aesop
  refine ⟨hmem fns ids0, ?_⟩
  intro q p dq hq hp hzero hlib
  ext d
  rw [hmem [q, p] ∅ d]
  simp only [Finset.not_mem_empty, false_or, Finset.mem_singleton]
  constructor
  · rintro ⟨n, hn, hcase⟩
    rcases List.mem_cons.mp hn with rfl | hn2
    · rcases hcase with ⟨_, hin⟩ | ⟨hcontra, _⟩
      · rw [hzero] at hin
        simp at hin
      · rw [hq] at hcontra
        simp at hcontra
    · rcases List.mem_cons.mp hn2 with rfl | hn3
      · rcases hcase with ⟨hcontra, _⟩ | ⟨_, hsome⟩
        · rw [hp] at hcontra
          simp at hcontra
        · rw [hlib] at hsome
          exact (Option.some.inj hsome).symm
      · simp at hn3
  · rintro rfl
    exact ⟨p, by simp, Or.inr ⟨hp, hlib⟩⟩

theorem runUnit_preserves_ids (s : GuidelineLints) (evs : List UnitEvent) :
    (runUnit s evs).1.mem_uns_fns_ty_ids = s.mem_uns_fns_ty_ids := by
  induction evs generalizing s with
  | nil => rfl
  | cons ev evs ih =>
    cases ev with
    | item it => simp [runUnit, stepUnit, GuidelineLints.check_item, check_foreign_item, ih]
    | expr e => simp [runUnit, stepUnit, ih]

/-- C3: once `check_crate` has built the dangerous-symbol set at unit start,
no per-item or per-expression callback dispatched afterwards adds to or
removes from it: the set after any event sequence equals the set right
after `check_crate`. Downstream, `mem_uns_functions_check` only tests
membership. -/
theorem guideline_c3 (host : ResolveHost) (s0 : GuidelineLints) (evs : List UnitEvent) :
    (runUnit (GuidelineLints.check_crate host s0) evs).1.mem_uns_fns_ty_ids =
      (GuidelineLints.check_crate host s0).mem_uns_fns_ty_ids :=
  runUnit_preserves_ids _ evs

/-- C6: a call whose callee resolves to a member of the dangerous-symbol set
yields exactly one Finding at that call's span with no suggested
replacement; a call to a symbol outside the set, or one whose callee does
not resolve, yields none; and call sites are evaluated independently — the
same call dispatched twice yields two findings. -/
theorem guideline_c6 (s : GuidelineLints) (e : HirExpr) (d : DefId) :
    (e.kind = .call (some d) → d ∈ s.mem_uns_fns_ty_ids →
      s.check_expr e = [⟨e.span, none⟩]) ∧
    (e.kind = .call (some d) → d ∉ s.mem_uns_fns_ty_ids → s.check_expr e = []) ∧
    (e.kind = .call none → s.check_expr e = []) ∧
    (e.kind = .call (some d) → d ∈ s.mem_uns_fns_ty_ids →
      (runUnit s [.expr e, .expr e]).2 = [⟨e.span, none⟩, ⟨e.span, none⟩]) := by
  refine ⟨?_, ?_, ?_, ?_⟩
  · intro hk hm
    simp [GuidelineLints.check_expr, mem_uns_functions_check, hk, hm]
  · intro hk hm
    simp [GuidelineLints.check_expr, mem_uns_functions_check, hk, hm]
  · intro hk
    simp [GuidelineLints.check_expr, mem_uns_functions_check, hk]
  · intro hk hm
    simp [runUnit, stepUnit, GuidelineLints.check_expr, mem_uns_functions_check, hk, hm]

/-- A state whose dangerous set is `{5}`, as after resolution. -/
def c6State : GuidelineLints := { mem_uns_fns := ["memcpy"], mem_uns_fns_ty_ids := {5} }

/-- A call expression whose callee resolved to definition `5`. -/
def c6Call : HirExpr := { span := 42, kind := .call (some 5) }

theorem guideline_c6_witness :
    c6Call.kind = .call (some 5) ∧ 5 ∈ c6State.mem_uns_fns_ty_ids ∧
    c6State.check_expr c6Call = [⟨c6Call.span, none⟩] ∧
    (runUnit c6State [.expr c6Call, .expr c6Call]).2 =
      [⟨c6Call.span, none⟩, ⟨c6Call.span, none⟩] :=
  ⟨rfl, by decide,
    (guideline_c6 c6State c6Call 5).1 rfl (by decide),
    (guideline_c6 c6State c6Call 5).2.2.2 rfl (by decide)⟩

/-- A resolver table for the witness: `aa::bb` is unmatched, `libc::foo`
resolves to definition `7`. -/
def c4Host : ResolveHost :=
  { defPathDefIds := fun path => if path = ["libc", "foo"] then [7] else [] }

theorem guideline_c4_witness :
    strContainsSub "aa::bb" "::" = true ∧ strContainsSub "foo" "::" = false ∧
    c4Host.defPathDefIds (strSplit "aa::bb" "::") = [] ∧
    libc_fn_def_id c4Host "foo" = some 7 ∧
    (GuidelineLints.check_crate c4Host ⟨["aa::bb", "foo"], ∅⟩).mem_uns_fns_ty_ids = {7} :=
  ⟨by decide, by decide, by decide, by decide,
    (guideline_c4 c4Host ["aa::bb", "foo"] ∅).2 "aa::bb" "foo" 7
      (by decide) (by decide) (by decide) (by decide)⟩

/-! ## Theorems: Range-Idiom Rule -/

/-- The pattern `'a'..='z'`. -/
def lowerRangePat : PatKind :=
  .range (some (.lit (.char 'a'))) (some (.lit (.char 'z'))) .included

/-- The pattern `'A'..='Z'`. -/
def upperRangePat : PatKind :=
  .range (some (.lit (.char 'A'))) (some (.lit (.char 'Z'))) .included

/-- The pattern `b'A'..=b'Z'`. -/
def upperByteRangePat : PatKind :=
  .range (some (.lit (.byte 65))) (some (.lit (.byte 90))) .included

/-- The pattern `'0'..='9'`. -/
def digitRangePat : PatKind :=
  .range (some (.lit (.char '0'))) (some (.lit (.char '9'))) .included

/-- The pattern `'a'..='y'`. -/
def nearLowerRangePat : PatKind :=
  .range (some (.lit (.char 'a'))) (some (.lit (.char 'y'))) .included

/-- C2 (amended): with the capability gates satisfied and the expression a
`matches!`-rooted `match`, the rule classifies the first arm's pattern per
the recognized table — inclusive `'a'..='z'` (char or byte) → the
lowercase-check, `'A'..='Z'` → the uppercase-check, `'0'..='9'` → the
digit-check, an or of exactly the Lower and Upper ranges (either order) →
the alphabetic-check; other endpoints (such as `'a'..='y'`) and
non-inclusive ranges → no finding. The first arm's guard and any further
arms are ignored: the verdict depends only on `arm.pat`. -/
theorem manual_is_ascii_c2_amended (host : LintHost) (e : Expr) (mc : MacroCall)
    (recv : Recv) (arm : Arm) (rest : List Arm)
    (hbase : host.meetsMsrv .isAsciiDigit = true)
    (hconst : host.inConstant e.hirId = false ∨ host.meetsMsrv .isAsciiDigitConst = true)
    (hroot : e.span.rootMacro = some mc)
    (hname : host.getDiagnosticName mc.def_id = some "matches_macro")
    (hkind : e.kind = .matchE recv (arm :: rest)) :
    (ManualIsAsciiCheck.check_expr host e =
      (rangeSuggestion (check_pat arm.pat)).map (fun sugg =>
        let recvSnip := snippet host recv.span ".."
        ⟨mc.span, "manual check for common ascii range", "try",
          recvSnip ++ "." ++ sugg ++ "()",
          if recvSnip != ".." then Applicability.machineApplicable
          else Applicability.maybeIncorrect⟩)) ∧
    check_pat lowerRangePat = .lowerChar ∧
    check_pat upperByteRangePat = .upperChar ∧
    check_pat digitRangePat = .digit ∧
    check_pat (.or [upperRangePat, lowerRangePat]) = .fullChar ∧
    check_pat (.or [lowerRangePat, upperRangePat]) = .fullChar ∧
    check_pat nearLowerRangePat = .otherwise ∧
    check_pat (.range (some (.lit (.char 'a'))) (some (.lit (.char 'z'))) .excluded) =
      .otherwise ∧
    rangeSuggestion CharRange.lowerChar = some "is_ascii_lowercase" ∧
    rangeSuggestion CharRange.upperChar = some "is_ascii_uppercase" ∧
    rangeSuggestion CharRange.digit = some "is_ascii_digit" ∧
    rangeSuggestion CharRange.fullChar = some "is_ascii_alphabetic" := by
  refine ⟨?_, by decide, by decide, by decide, by decide, by decide, by decide, by decide,
    rfl, rfl, rfl, rfl⟩
  have hgate2 : (host.inConstant e.hirId && !(host.meetsMsrv .isAsciiDigitConst)) = false := by
    rcases hconst with h | h <;> simp [h]
  have hm : is_matches_macro host mc.def_id = true := by
    simp [ is_matches_macro, hname]
  cases hr : rangeSuggestion (check_pat arm.pat) with
  | none => simp [ManualIsAsciiCheck.check_expr, hbase, hgate2, hroot, hm, hkind, hr]
  | some sugg => simp [ManualIsAsciiCheck.check_expr, hbase, hgate2, hroot, hm, hkind, hr,
      snippet]

/-- A host with all gates met, macro `0` registered as `matches!`, and span
`5` rendering as `"c"`. -/
def c2Host : LintHost :=
  { meetsMsrv := fun _ => true
    inConstant := fun _ => false
    getDiagnosticName := fun did => if did == 0 then some "matches_macro" else none
    snippetOf := fun sp => if sp == 5 then some "c" else none }

/-- The desugaring of `matches!(c, 'a'..='z' if extra)`: a `matches!`-rooted
match whose first arm has the pattern `'a'..='z'` and an `if` guard. -/
def c2GuardedExpr : Expr :=
  { hirId := 0
    span := { raw := 1, rootMacro := some ⟨0, 2⟩ }
    kind := .matchE ⟨5⟩ [⟨lowerRangePat, true⟩, ⟨.wild, false⟩] }

/-- C2 counterexample: the claim says `matches!(c, 'a'..='z' if extra)`
produces no Finding, but `check_expr` never inspects the arm's guard
(`check_pat` only receives `arm.pat`), so the guarded input produces a
finding suggesting `c.is_ascii_lowercase()`. -/
theorem manual_is_ascii_c2_counterexample :
    c2GuardedExpr.kind = .matchE ⟨5⟩ [⟨lowerRangePat, true⟩, ⟨.wild, false⟩] ∧
    ManualIsAsciiCheck.check_expr c2Host c2GuardedExpr =
      some ⟨2, "manual check for common ascii range", "try", "c.is_ascii_lowercase()",
        Applicability.machineApplicable⟩ :=
  ⟨rfl, by decide⟩

/-- A `matches!`-rooted match on `'a'..='z'` without a guard. -/
def c2OkExpr : Expr :=
  { hirId := 1
    span := { raw := 3, rootMacro := some ⟨0, 4⟩ }
    kind := .matchE ⟨5⟩ [⟨lowerRangePat, false⟩, ⟨.wild, false⟩] }

theorem manual_is_ascii_c2_witness :
    ManualIsAsciiCheck.check_expr c2Host c2OkExpr =
      (rangeSuggestion (check_pat lowerRangePat)).map (fun sugg =>
        let recvSnip := snippet c2Host (5 : Span) ".."
        ⟨(4 : Span), "manual check for common ascii range", "try",
          recvSnip ++ "." ++ sugg ++ "()",
          if recvSnip != ".." then Applicability.machineApplicable
          else Applicability.maybeIncorrect⟩) :=
  (manual_is_ascii_c2_amended c2Host c2OkExpr ⟨0, 4⟩ ⟨5⟩ ⟨lowerRangePat, false⟩
    [⟨.wild, false⟩] rfl (Or.inl rfl) rfl rfl rfl).1

/-- C5: with the base threshold unmet, no finding is ever emitted,
regardless of the expression; with the base threshold met but the
constant-context threshold unmet, any expression in a compile-time context
yields no finding, while a recognized pattern outside such a context yields
one. -/
theorem manual_is_ascii_c5 (host : LintHost) (e econst : Expr) (mc : MacroCall)
    (recv : Recv) (arm : Arm) (rest : List Arm) :
    (host.meetsMsrv .isAsciiDigit = false → ∀ e0 : Expr,
      ManualIsAsciiCheck.check_expr host e0 = none) ∧
    (host.meetsMsrv .isAsciiDigit = true → host.meetsMsrv .isAsciiDigitConst = false →
      (host.inConstant econst.hirId = true →
        ManualIsAsciiCheck.check_expr host econst = none) ∧
      (host.inConstant e.hirId = false → e.span.rootMacro = some mc →
        host.getDiagnosticName mc.def_id = some "matches_macro" →
        e.kind = .matchE recv (arm :: rest) →
        (rangeSuggestion (check_pat arm.pat)).isSome = true →
        (ManualIsAsciiCheck.check_expr host e).isSome = true)) := by
  refine ⟨?_, ?_⟩
  · intro hb e0
    simp [ManualIsAsciiCheck.check_expr, hb]
  · intro hb hc
    refine ⟨?_, ?_⟩
    · intro hic
      simp [ManualIsAsciiCheck.check_expr, hb, hc, hic]
    · intro hic hroot hname hkind hsome
      have hm : is_matches_macro host mc.def_id = true := by
        simp [ is_matches_macro, hname]
      cases hr : rangeSuggestion (check_pat arm.pat) with
      | none => rw [hr] at hsome; cases hsome
      | some sugg =>
        simp [ManualIsAsciiCheck.check_expr, hb, hic, hroot, hm, hkind, hr]

/-- A host whose base capability gate is unmet. -/
def c5HostBaseUnmet : LintHost :=
  { meetsMsrv := fun _ => false, inConstant := fun _ => false,
    getDiagnosticName := fun _ => some "matches_macro", snippetOf := fun _ => some "c" }

/-- A host meeting the base gate but not the constant-context gate;
expression `9` sits in a compile-time-evaluated context. -/
def c5Host : LintHost :=
  { meetsMsrv := fun g => match g with | .isAsciiDigit => true | .isAsciiDigitConst => false
    inConstant := fun hid => hid == 9
    getDiagnosticName := fun _ => some "matches_macro"
    snippetOf := fun _ => some "c" }

/-- The recognized pattern inside a compile-time-evaluated context. -/
def c5ConstExpr : Expr :=
  { hirId := 9, span := { raw := 1, rootMacro := some ⟨0, 2⟩ },
    kind := .matchE ⟨5⟩ [⟨lowerRangePat, false⟩, ⟨.wild, false⟩] }

/-- The identical pattern outside any compile-time-evaluated context. -/
def c5PlainExpr : Expr :=
  { hirId := 8, span := { raw := 1, rootMacro := some ⟨0, 2⟩ },
    kind := .matchE ⟨5⟩ [⟨lowerRangePat, false⟩, ⟨.wild, false⟩] }

theorem manual_is_ascii_c5_witness :
    ManualIsAsciiCheck.check_expr c5HostBaseUnmet c5PlainExpr = none ∧
    ManualIsAsciiCheck.check_expr c5Host c5ConstExpr = none ∧
    (ManualIsAsciiCheck.check_expr c5Host c5PlainExpr).isSome = true :=
  ⟨(manual_is_ascii_c5 c5HostBaseUnmet c5PlainExpr c5ConstExpr ⟨0, 2⟩ ⟨5⟩
      ⟨lowerRangePat, false⟩ [⟨.wild, false⟩]).1 rfl c5PlainExpr,
    ((manual_is_ascii_c5 c5Host c5PlainExpr c5ConstExpr ⟨0, 2⟩ ⟨5⟩
      ⟨lowerRangePat, false⟩ [⟨.wild, false⟩]).2 rfl rfl).1 rfl,
    ((manual_is_ascii_c5 c5Host c5PlainExpr c5ConstExpr ⟨0, 2⟩ ⟨5⟩
      ⟨lowerRangePat, false⟩ [⟨.wild, false⟩]).2 rfl rfl).2 rfl rfl rfl rfl (by decide)⟩

/-- C7: for a recognized match, the finding is emitted whether or not the
receiver's source text is recoverable, and its applicability is
machine-applicable exactly when the recovered snippet differs from the
`".."` placeholder; with an unrecoverable snippet the finding is demoted to
maybe-incorrect, not suppressed. -/
theorem manual_is_ascii_c7 (host : LintHost) (e : Expr) (mc : MacroCall)
    (recv : Recv) (arm : Arm) (rest : List Arm) (m : String)
    (hbase : host.meetsMsrv .isAsciiDigit = true)
    (hconst : host.inConstant e.hirId = false ∨ host.meetsMsrv .isAsciiDigitConst = true)
    (hroot : e.span.rootMacro = some mc)
    (hname : host.getDiagnosticName mc.def_id = some "matches_macro")
    (hkind : e.kind = .matchE recv (arm :: rest))
    (hm : rangeSuggestion (check_pat arm.pat) = some m) :
    ∃ f, ManualIsAsciiCheck.check_expr host e = some f ∧
      f.applicability = (if snippet host recv.span ".." != ".." then
        Applicability.machineApplicable else Applicability.maybeIncorrect) ∧
      (host.snippetOf recv.span = none →
        f.applicability = Applicability.maybeIncorrect) := by
  have hgate2 : (host.inConstant e.hirId && !(host.meetsMsrv .isAsciiDigitConst)) = false := by
    rcases hconst with h | h <;> simp [h]
  have hmac : is_matches_macro host mc.def_id = true := by
    simp [ is_matches_macro, hname]
  refine ⟨⟨mc.span, "manual check for common ascii range", "try",
    snippet host recv.span ".." ++ "." ++ m ++ "()",
    if snippet host recv.span ".." != ".." then Applicability.machineApplicable
    else Applicability.maybeIncorrect⟩, ?_, rfl, ?_⟩
  · simp [ManualIsAsciiCheck.check_expr, hbase, hgate2, hroot, hmac, hkind, hm]
  · intro hnone
    simp [snippet, hnone]

/-- A host whose source-text extraction is everywhere unrecoverable. -/
def c7HostUnrec : LintHost :=
  { meetsMsrv := fun _ => true, inConstant := fun _ => false,
    getDiagnosticName := fun _ => some "matches_macro", snippetOf := fun _ => none }

theorem manual_is_ascii_c7_witness :
    ∃ f, ManualIsAsciiCheck.check_expr c7HostUnrec c2OkExpr = some f ∧
      f.applicability = (if snippet c7HostUnrec (5 : Span) ".." != ".." then
        Applicability.machineApplicable else Applicability.maybeIncorrect) ∧
      (c7HostUnrec.snippetOf (5 : Span) = none →
        f.applicability = Applicability.maybeIncorrect) :=
  manual_is_ascii_c7 c7HostUnrec c2OkExpr ⟨0, 4⟩ ⟨5⟩ ⟨lowerRangePat, false⟩
    [⟨.wild, false⟩] "is_ascii_lowercase" rfl (Or.inl rfl) rfl rfl rfl (by decide)

/-- C10: the rule fires only on expressions whose span's root macro
invocation is the `matches!` macro, identified by its diagnostic name: with
no root macro call (a hand-written `match`), or a root macro whose
diagnostic name is not `matches_macro`, no finding is produced, whatever
the expression's shape. -/
theorem manual_is_ascii_c10 (host : LintHost) (e : Expr)
    (h : ∀ mc : MacroCall, e.span.rootMacro = some mc →
      is_matches_macro host mc.def_id = false) :
    ManualIsAsciiCheck.check_expr host e = none := by
  unfold ManualIsAsciiCheck.check_expr
  by_cases h1 : (!(host.meetsMsrv .isAsciiDigit)) = true
  · rw [if_pos h1]
  · rw [if_neg h1]
    by_cases h2 : (host.inConstant e.hirId && !(host.meetsMsrv .isAsciiDigitConst)) = true
    · rw [if_pos h2]
    · rw [if_neg h2]
      cases hroot : e.span.rootMacro with
      | none => rfl
      | some mc => simp [h mc hroot]

/-- A host with every gate met whose diagnostic-name table is empty: no
macro is the `matches!` macro. -/
def c10Host : LintHost :=
  { meetsMsrv := fun _ => true, inConstant := fun _ => false,
    getDiagnosticName := fun _ => none, snippetOf := fun _ => some "c" }

/-- A hand-written `match c { 'a'..='z' => true, _ => false }`: no root
macro call, first arm a recognized range. -/
def c10Expr : Expr :=
  { hirId := 0, span := { raw := 1, rootMacro := none },
    kind := .matchE ⟨5⟩ [⟨lowerRangePat, false⟩, ⟨.wild, false⟩] }

theorem manual_is_ascii_c10_witness :
    ManualIsAsciiCheck.check_expr c10Host c10Expr = none :=
  manual_is_ascii_c10 c10Host c10Expr (fun _ h => Option.noConfusion h)

end Spec2Proof
